import Mathlib

/-!
Verification of the reproto schema compiler against its specification.

Each section embeds one part of the source shallowly: pure Rust functions
become Lean functions, `Result` becomes `Except`, `Rc` pointers become
arena identifiers (natural numbers), and machine integers become `Nat`.
-/

set_option maxHeartbeats 1000000

namespace Reproto

/-!
## Core IR: positions, locations and code blocks

From src/src/core/rp_code.rs: `RpCode` holds a context and a list of lines;
the `Merge` implementation for `Vec<RpLoc<RpCode>>` extends the target
vector with the source vector and always returns `Ok`.
-/

structure RpPos where
  start : Nat
  stop : Nat
deriving DecidableEq

structure RpLoc (α : Type) where
  inner : α
  pos : RpPos
deriving DecidableEq

structure RpCode where
  context : String
  lines : List String
deriving DecidableEq

/-- `impl Merge for Vec<RpLoc<RpCode>>` (src/src/core/rp_code.rs, lines 11-16):
`self.extend(source); Ok(())`. -/
def mergeCodes (target source : List (RpLoc RpCode)) : Except String (List (RpLoc RpCode)) :=
  Except.ok (target ++ source)

/-- Concrete code block used to separate the two sides of the merge. -/
def codeBlockA : RpLoc RpCode :=
  { inner := { context := "rust", lines := ["line_a"] }, pos := { start := 0, stop := 1 } }

/-- A second, different concrete code block. -/
def codeBlockB : RpLoc RpCode :=
  { inner := { context := "java", lines := ["line_b"] }, pos := { start := 2, stop := 3 } }

/-!
## Registered declarations (src/core/src/rp_registered.rs)

`RpRegistered` wraps `Rc` pointers to declaration bodies.  Following the
arena design, an `Rc<Body>` is embedded as a stable identifier (a `Nat`)
into an arena owned by the environment; `Rc::ptr_eq` becomes identifier
equality.  The arena maps identifiers to bodies for the field listing.
-/

inductive RpRegistered where
  | type_ (body : Nat)
  | interface (body : Nat)
  | enum_ (body : Nat)
  | tuple (body : Nat)
  | subTypeOf (parent : Nat) (subType : Nat)
  | enumConstant (parent : Nat) (variant : Nat)
  | service (body : Nat)
deriving DecidableEq

/-- `RpRegistered::is_assignable_from` (src/core/src/rp_registered.rs,
lines 48-92), arm for arm; `Rc::ptr_eq` is identifier equality. -/
def isAssignableFrom : RpRegistered → RpRegistered → Bool
  | .type_ target, .type_ source => target == source
  | .tuple target, .tuple source => target == source
  | .service target, .service source => target == source
  | .interface target, .interface source => target == source
  | .enum_ target, .enum_ source => target == source
  | .interface target, .subTypeOf source _ => target == source
  | .enum_ target, .enumConstant source _ => target == source
  | .subTypeOf targetParent target, .subTypeOf sourceParent source =>
      targetParent == sourceParent && target == source
  | .enumConstant targetParent target, .enumConstant sourceParent source =>
      targetParent == sourceParent && target == source
  | _, _ => false

/-!
Field model for the newer core crate (src/core): a field has a schema name,
an identifier, an optional flag and a type.  The rust backend type is
defined below; fields here only need to be compared as data.
-/

structure RpName where
  parts : List String
deriving DecidableEq

inductive RpType where
  | string
  | signed (size : Option Nat)
  | unsigned (size : Option Nat)
  | float
  | double
  | boolean
  | bytes
  | any
  | array (inner : RpType)
  | map (key value : RpType)
  | name (n : RpName)
deriving DecidableEq

structure RpField where
  name : String
  ident : String
  optional : Bool
  ty : RpType
deriving DecidableEq

structure RpTypeBody where
  fields : List RpField
deriving DecidableEq

structure RpTupleBody where
  fields : List RpField
deriving DecidableEq

structure RpSubTypeBody where
  name : String
  fields : List RpField
  names : List String
deriving DecidableEq

structure RpInterfaceBody where
  fields : List RpField
  subTypes : List RpSubTypeBody
  codes : List RpCode
deriving DecidableEq

/-- The arena resolving body identifiers to bodies (one map per body kind). -/
structure Arena where
  typeBody : Nat → RpTypeBody
  tupleBody : Nat → RpTupleBody
  interfaceBody : Nat → RpInterfaceBody
  subTypeBody : Nat → RpSubTypeBody

/-- `RpRegistered::fields` (src/core/src/rp_registered.rs, lines 23-36):
types and tuples list their own fields, a sub-type chains the parent
interface's fields with its own, and every other handle is an error. -/
def registeredFields (ar : Arena) : RpRegistered → Except String (List RpField)
  | .type_ body => .ok (ar.typeBody body).fields
  | .tuple body => .ok (ar.tupleBody body).fields
  | .subTypeOf parent subType =>
      .ok ((ar.interfaceBody parent).fields ++ (ar.subTypeBody subType).fields)
  | _ => .error "has no fields"

/-!
## Rust backend type mapping (src/backend/rust/src/rust_backend.rs)

`into_rust_type` maps IR types to rendered Rust types.  The environment
lookup performed by `convert_type_id` for named types, and the imported
names for maps and `any`, are carried as data on the backend record.
-/

structure RustBackendM where
  hashMap : String
  jsonValue : String
  idConv : String → String
  convertTypeId : RpPos → RpName → Except String String

/-- `RustBackend::into_rust_type` (src/backend/rust/src/rust_backend.rs,
lines 83-120).  Signed and unsigned integers select the 32-bit type when
the size is absent or at most 32, and the 64-bit type otherwise; the
catch-all arm (here: bytes) is an error. -/
def intoRustType (b : RustBackendM) (pos : RpPos) : RpType → Except String String
  | .string => .ok "String"
  | .signed size =>
      .ok (if (size.map (fun s => decide (s ≤ 32))).getD true then "i32" else "i64")
  | .unsigned size =>
      .ok (if (size.map (fun s => decide (s ≤ 32))).getD true then "u32" else "u64")
  | .float => .ok "f32"
  | .double => .ok "f64"
  | .boolean => .ok "bool"
  | .array inner =>
      (intoRustType b pos inner).map (fun argument => "Vec<" ++ argument ++ ">")
  | .name n => b.convertTypeId pos n
  | .map key value =>
      (intoRustType b pos key).bind (fun k =>
        (intoRustType b pos value).map (fun v =>
          b.hashMap ++ "<" ++ k ++ ", " ++ v ++ ">"))
  | .any => .ok b.jsonValue
  | .bytes => .error "unsupported type"

/-!
## Check driver (src/cli/src/ops/check.rs)

`inner` walks the matched packages, letting `semck_check` push each
package's semver errors onto a shared vector, and finally fails with the
whole batch when anything accumulated.  `semck_check` itself lives outside
this crate; it is embedded as a function giving, per package, either the
list of semver errors it appends or a fatal error (its `Result`).
-/

inductive CheckError (β : Type) where
  | errors (batch : List β)
  | fatal (msg : String)
deriving DecidableEq

/-- The `for m in results { semck_check(&mut errors, ...)? }` loop followed
by the final `if errors.len() > 0` test (src/cli/src/ops/check.rs,
lines 66-76). -/
def checkLoop {α β : Type} (semckCheck : α → Except String (List β)) :
    List α → List β → Except (CheckError β) Unit
  | [], errors =>
      if errors.length > 0 then .error (.errors errors) else .ok ()
  | m :: rest, errors =>
      match semckCheck m with
      | .error e => .error (.fatal e)
      | .ok errs => checkLoop semckCheck rest (errors ++ errs)

/-- `inner` starts from an empty error vector. -/
def checkInner {α β : Type} (semckCheck : α → Except String (List β))
    (results : List α) : Except (CheckError β) Unit :=
  checkLoop semckCheck results []

/-- The errors a successful `semck_check` call appends. -/
def okList {β : Type} : Except String (List β) → List β
  | .ok l => l
  | .error _ => []

/-- All semver errors accumulated over a run, in order. -/
def collectErrors {α β : Type} (semckCheck : α → Except String (List β))
    (results : List α) : List β :=
  results.foldr (fun m acc => okList (semckCheck m) ++ acc) []

/-- Concrete matched-package list for evaluating the check driver. -/
def exampleResults : List Nat := [1, 2]

/-- Concrete semver-check outcomes: both packages produce one error. -/
def exampleSemck : Nat → Except String (List String) :=
  fun m => if m = 1 then .ok ["first"] else .ok ["second"]

/-!
## Rust compiler mod files (src/backend/rust/src/rust_compiler.rs)

`write_mod_files` collects, for every directory node above an emitted
package, a `mod` file path together with the set of child names, then
creates each `mod` file only when no file exists at its path.  Paths are
embedded as lists of components, `BTreeMap`/`BTreeSet` as sorted
association lists, and the filesystem as a partial map from path to
contents.
-/

abbrev ModPath := List String

abbrev FileSystem := ModPath → Option String

/-- `BTreeMap` path order: lexicographic over components. -/
def pathCmp : ModPath → ModPath → Ordering
  | [], [] => .eq
  | [], _ :: _ => .lt
  | _ :: _, [] => .gt
  | a :: as, b :: bs =>
      match compare a b with
      | .eq => pathCmp as bs
      | o => o

/-- `BTreeSet<String>` insert. -/
def insertName : List String → String → List String
  | [], c => [c]
  | x :: xs, c =>
      match compare c x with
      | .lt => c :: x :: xs
      | .eq => x :: xs
      | .gt => x :: insertName xs c

/-- `packages.entry(full_path).or_insert_with(BTreeSet::new).insert(next)`. -/
def insertChildEntry : List (ModPath × List String) → ModPath → String →
    List (ModPath × List String)
  | [], key, child => [(key, [child])]
  | (k, cs) :: rest, key, child =>
      match pathCmp key k with
      | .lt => (key, [child]) :: (k, cs) :: rest
      | .eq => (k, insertName cs child) :: rest
      | .gt => (k, cs) :: insertChildEntry rest key child

/-- `packages.insert(root_mod, root_names)` (plain overwriting insert). -/
def insertOverwrite : List (ModPath × List String) → ModPath → List String →
    List (ModPath × List String)
  | [], key, v => [(key, v)]
  | (k, cs) :: rest, key, v =>
      match pathCmp key k with
      | .lt => (key, v) :: (k, cs) :: rest
      | .eq => (key, v) :: rest
      | .gt => (k, cs) :: insertOverwrite rest key v

/-- The `while let Some(part) = it.next()` walk over one package's parts:
for every part that still has a successor, record the `mod` file of the
directory reached so far with that successor as a child. -/
def modEntries (modFile : String) : ModPath → List String → List (ModPath × String)
  | _, [] => []
  | _, [_] => []
  | current, p :: next :: rest =>
      (current ++ [p, modFile], next) :: modEntries modFile (current ++ [p]) (next :: rest)

structure RustCompilerM where
  outPath : ModPath
  modName : String
  ext : String

/-- `MOD` with `set_extension(self.ext())` applied. -/
def RustCompilerM.modFile (c : RustCompilerM) : String :=
  c.modName ++ "." ++ c.ext

/-- The `packages` map plus the root entry, computed from the emitted
package set (first half of `write_mod_files`,
src/backend/rust/src/rust_compiler.rs, lines 27-57). -/
def buildPackages (c : RustCompilerM) (files : List (List String)) :
    List (ModPath × List String) :=
  let step := fun (acc : List (ModPath × List String) × List String) (parts : List String) =>
    let packages := (modEntries c.modFile c.outPath parts).foldl
      (fun ps e => insertChildEntry ps e.1 e.2) acc.1
    let roots := match parts.head? with
      | some root => insertName acc.2 root
      | none => acc.2
    (packages, roots)
  let built := files.foldl step ([], [])
  insertOverwrite built.1 (c.outPath ++ [c.modFile]) built.2

/-- The contents written into a fresh `mod` file: one `pub mod` line per
child. -/
def renderModFile (children : List String) : String :=
  String.join (children.map (fun child => "pub mod " ++ child ++ ";\n"))

/-- The write loop: each entry creates its file only if no file exists at
that path (`if !full_path.is_file()`), second half of `write_mod_files`. -/
def writeEntries (entries : List (ModPath × List String)) (fs : FileSystem) : FileSystem :=
  entries.foldl
    (fun fs e =>
      if (fs e.1).isSome then fs
      else fun q => if q = e.1 then some (renderModFile e.2) else fs q)
    fs

/-- `RustCompiler::write_mod_files` (src/backend/rust/src/rust_compiler.rs,
lines 27-78). -/
def writeModFiles (c : RustCompilerM) (files : List (List String)) (fs : FileSystem) :
    FileSystem :=
  writeEntries (buildPackages c files) fs

/-!
## Code-block indent stripping (src/src/parser/parser.rs, lines 8-65)

`strip_code_block` iterates over `input.lines()`; the embedding takes the
line list directly.  `&line[indent..]` slices bytes in Rust; lines are
treated at character granularity here.
-/

/-- `is_indent`. -/
def isIndentChar (c : Char) : Bool :=
  c = ' ' || c = '\t'

/-- `find_indent` over a line's characters: the index of the first
non-indentation character. -/
def findIndentAux : List Char → Option Nat
  | [] => none
  | c :: rest => if isIndentChar c then (findIndentAux rest).map (· + 1) else some 0

def find_indent (s : String) : Option Nat :=
  findIndentAux s.toList

/-- The loop of `code_block_indent`, threading the line number, minimum
indent so far, count of leading blank lines, end of the last non-blank
line, and the first-line flag. -/
def codeBlockIndentGo :
    List String → Nat → Option Nat → Nat → Nat → Bool → Option Nat × Nat × Nat
  | [], _, indent, start, stop, _ => (indent, start, stop)
  | line :: rest, lineNo, indent, start, stop, firstLine =>
      match find_indent line with
      | some current =>
          codeBlockIndentGo rest (lineNo + 1)
            (if (indent.map (fun i => decide (i > current))).getD true
             then some current else indent)
            start (lineNo + 1) true
      | none =>
          codeBlockIndentGo rest (lineNo + 1) indent
            (if firstLine then start else start + 1) stop firstLine

/-- `code_block_indent` (src/src/parser/parser.rs, lines 21-46). -/
def code_block_indent (lines : List String) : Option (Nat × Nat × Nat) :=
  match codeBlockIndentGo lines 0 none 0 0 false with
  | (some indent, start, stop) => some (indent, start, stop - start)
  | (none, _, _) => none

/-- `strip_code_block` (src/src/parser/parser.rs, lines 48-65). -/
def strip_code_block (lines : List String) : List String :=
  match code_block_indent lines with
  | some (indent, emptyStart, len) =>
      ((lines.drop emptyStart).take len).map
        (fun line => if line.length < indent then line else line.drop indent)
  | none => lines

/-- A line consisting only of indentation characters (possibly empty). -/
def blankLine (s : String) : Bool :=
  s.toList.all isIndentChar

/-- Spec-side definition (for the refinement claim): the minimum
indentation over the non-blank lines. -/
def minIndentOf (lines : List String) : Option Nat :=
  (lines.filterMap find_indent).min?

/-- Spec-side definition (for the refinement claim): drop leading and
trailing all-blank lines and remove exactly the minimum indentation from
each remaining line, keeping shorter lines whole. -/
def stripCodeBlockSpec (lines : List String) : List String :=
  match minIndentOf lines with
  | none => []
  | some ind =>
      (((lines.dropWhile blankLine).reverse.dropWhile blankLine).reverse).map
        (fun line => if line.length < ind then line else line.drop ind)

/-!
## Rust backend interface emission (src/backend/rust/src/rust_backend.rs)

`process_interface` builds a public enum.  `Statement`s are rendered as
strings and `Elements` as string lists; the nesting indentation added by
`push_nested` is not modelled.
-/

/-- `codes.for_context(RUST_CONTEXT)`: the lines of the code blocks whose
context matches. -/
def forContext (codes : List RpCode) (ctx : String) : List (List String) :=
  (codes.filter (fun code => code.context == ctx)).map (fun code => code.lines)

/-- `RustBackend::ident`: the identifier converter (identity when no
converter is configured). -/
def backendIdent (b : RustBackendM) (name : String) : String :=
  b.idConv name

/-- `into_type` (src/backend/rust/src/rust_backend.rs, lines 73-81): the
field's type with an `Option` wrapper when the field is optional. -/
def intoType (b : RustBackendM) (pos : RpPos) (field : RpField) :
    Except String String :=
  (intoRustType b pos field.ty).map (fun stmt =>
    if field.optional then "Option<" ++ stmt ++ ">" else stmt)

/-- `field_element` (src/backend/rust/src/rust_backend.rs, lines 122-144):
the lines emitted for one field. -/
def fieldElement (b : RustBackendM) (pos : RpPos) (field : RpField) :
    Except String (List String) :=
  (intoType b pos field).map (fun typeSpec =>
    (if field.optional
     then ["#[serde(skip_serializing_if=\"Option::is_none\")]"] else [])
    ++ (if field.name ≠ backendIdent b field.ident
        then ["#[serde(rename = \"" ++ field.name ++ "\")]"] else [])
    ++ [backendIdent b field.ident ++ ": " ++ typeSpec ++ ","])

structure EnumSpec where
  name : String
  public : Bool
  attributes : List String
  elements : List (List String)
deriving DecidableEq

/-- One sub-type's variant element (the loop body of `process_interface`,
src/backend/rust/src/rust_backend.rs, lines 234-254): optional wire-name
rename, the variant header, the parent's fields chained with the
sub-type's own fields, and the closing brace. -/
def variantElement (b : RustBackendM) (pos : RpPos) (body : RpInterfaceBody)
    (st : RpSubTypeBody) : Except String (List String) :=
  ((body.fields ++ st.fields).mapM (fieldElement b pos)).map (fun fieldLines =>
    (match st.names.head? with
     | some n => ["#[serde(rename = \"" ++ n ++ "\")]"]
     | none => [])
    ++ [st.name ++ " \x7b"]
    ++ fieldLines.flatten
    ++ ["\x7d,"])

/-- `process_interface` (src/backend/rust/src/rust_backend.rs,
lines 216-259). -/
def processInterface (b : RustBackendM) (pos : RpPos) (typeName : String)
    (body : RpInterfaceBody) : Except String EnumSpec :=
  (body.subTypes.mapM (variantElement b pos body)).map (fun variants =>
    { name := typeName
      public := true
      attributes := ["#[derive(Serialize, Deserialize, Debug)]",
        "#[serde(tag = \"type\")]"]
      elements := forContext body.codes "rust" ++ variants })

/-- A concrete backend with no identifier converter and no named-type
lookups, for evaluating the emission. -/
def shapeBackend : RustBackendM :=
  { hashMap := "HashMap"
    jsonValue := "Value"
    idConv := fun s => s
    convertTypeId := fun _ _ => .error "no lookup" }

/-- The `Shape` interface of the spec's scenario 3. -/
def shapeBody : RpInterfaceBody :=
  { fields := [{ name := "kind", ident := "kind", optional := false,
                 ty := RpType.string }]
    subTypes :=
      [{ name := "Circle"
         fields := [{ name := "radius", ident := "radius", optional := false,
                      ty := RpType.double }]
         names := ["circle"] },
       { name := "Square"
         fields := [{ name := "side", ident := "side", optional := false,
                      ty := RpType.double }]
         names := ["square"] }]
    codes := [] }

/-- The enum emitted for `shapeBody`. -/
def shapeEnumSpec : EnumSpec :=
  { name := "Shape"
    public := true
    attributes := ["#[derive(Serialize, Deserialize, Debug)]",
      "#[serde(tag = \"type\")]"]
    elements :=
      [["#[serde(rename = \"circle\")]", "Circle \x7b", "kind: String,",
        "radius: f64,", "\x7d,"],
       ["#[serde(rename = \"square\")]", "Square \x7b", "kind: String,",
        "side: f64,", "\x7d,"]] }

/-!
## The pest grammar (src/src/parser/parser.rs, lines 115-255)

The `impl_rdp!` grammar is embedded as a PEG over characters, interpreted
with fuel.  Pest 1.x semantics: in non-atomic rules the `whitespace` and
`comment` rules are consumed implicitly between the expressions of a
sequence and between repetitions; rules marked `@` are atomic and
atomicity extends to every rule they call.  Silent (`_`) rules only
change the token tree, not recognition, so they are embedded like
ordinary rules; silent bodies such as `type_body = _{ member* }` are
inlined at their use site.
-/

inductive RuleId where
  | file | decl | useDecl | useAs | packageDecl
  | typeDecl | tupleDecl | interfaceDecl | enumDecl
  | subType | member | field | fieldAs | codeBlock | codeBody
  | enumBodyValue | enumValue | enumName | enumArguments | enumOrdinal
  | optionDecl | matchDecl | matchMemberEntry | matchMember
  | matchCondition | matchVariable | matchValue
  | packageIdent | typeSpec
  | floatType | doubleType | signedType | unsignedType | booleanType
  | stringType | bytesType | anyType | mapType | arrayType | customType
  | usedPref
  | enumKeyword | useKeyword | asKeyword | packageKeyword | typeKeyword
  | tupleKeyword | interfaceKeyword | matchKeyword
  | hashRocket | comma | colon | scope | semiColon
  | leftCurly | rightCurly | bracketStart | bracketEnd
  | codeStart | codeEnd | leftParen | rightParen
  | forwardSlash | optionalMark | equals | dot
  | typeBits | optionalValueList | value
  | instanceRule | instanceArguments | constantRule | arrayRule
  | fieldInit | fieldName
  | identifier | typeIdentifier
  | stringRule | escapeRule | unicodeRule | hexRule
  | unsignedRule | numberRule | intRule | booleanRule
  | whitespaceRule
deriving DecidableEq

inductive Peg where
  | str (s : String)
  | range (lo hi : Char)
  | anyc
  | eoi
  | seq (a b : Peg)
  | alt (a b : Peg)
  | star (p : Peg)
  | quest (p : Peg)
  | nope (p : Peg)
  | call (r : RuleId)

/-- Right-nested sequence of expressions joined by `~`. -/
def pseq : List Peg → Peg
  | [] => .str ""
  | [p] => p
  | p :: q :: rest => .seq p (pseq (q :: rest))

/-- Right-nested ordered choice. -/
def palt : List Peg → Peg
  | [] => .nope (.str "")
  | [p] => p
  | p :: q :: rest => .alt p (palt (q :: rest))

/-- Which rules carry the `@` (atomic) modifier. -/
def isAtomic : RuleId → Bool
  | .enumKeyword | .useKeyword | .asKeyword | .packageKeyword | .typeKeyword
  | .tupleKeyword | .interfaceKeyword | .matchKeyword
  | .hashRocket | .comma | .colon | .scope | .semiColon
  | .leftCurly | .rightCurly | .bracketStart | .bracketEnd
  | .codeStart | .codeEnd | .leftParen | .rightParen
  | .forwardSlash | .optionalMark | .equals | .dot
  | .floatType | .doubleType | .signedType | .unsignedType | .booleanType
  | .stringType | .bytesType | .anyType | .customType | .usedPref
  | .packageIdent | .codeBlock | .identifier | .typeIdentifier
  | .stringRule | .unsignedRule | .numberRule | .whitespaceRule => true
  | _ => false

/-- The grammar, rule for rule (src/src/parser/parser.rs, lines 116-255). -/
def grammar : RuleId → Peg
  | .file => pseq [.call .packageDecl, .star (.call .useDecl),
      .star (.call .decl), .eoi]
  | .decl => palt [.call .typeDecl, .call .interfaceDecl, .call .tupleDecl,
      .call .enumDecl]
  | .useDecl => pseq [.call .useKeyword, .call .packageIdent,
      .quest (.call .useAs), .call .semiColon]
  | .useAs => pseq [.call .asKeyword, .call .identifier]
  | .packageDecl => pseq [.call .packageKeyword, .call .packageIdent,
      .call .semiColon]
  | .typeDecl => pseq [.call .typeKeyword, .call .typeIdentifier,
      .call .leftCurly, .star (.call .member), .call .rightCurly]
  | .tupleDecl => pseq [.call .tupleKeyword, .call .typeIdentifier,
      .call .leftCurly, .star (.call .member), .call .rightCurly]
  | .interfaceDecl => pseq [.call .interfaceKeyword, .call .typeIdentifier,
      .call .leftCurly, .star (.call .member), .star (.call .subType),
      .call .rightCurly]
  | .enumDecl => pseq [.call .enumKeyword, .call .typeIdentifier,
      .call .leftCurly, .star (.call .enumBodyValue), .star (.call .member),
      .call .rightCurly]
  | .subType => pseq [.call .typeIdentifier, .call .leftCurly,
      .star (.call .member), .call .rightCurly]
  | .member => palt [.call .optionDecl, .call .matchDecl, .call .field,
      .call .codeBlock]
  | .field => pseq [.call .identifier, .quest (.call .optionalMark),
      .call .colon, .call .typeSpec, .quest (.call .fieldAs),
      .call .semiColon]
  | .fieldAs => pseq [.call .asKeyword, .call .value]
  | .codeBlock => pseq [.call .identifier, .star (.call .whitespaceRule),
      .call .codeStart, .call .codeBody, .call .codeEnd]
  | .codeBody => .star (.seq (.nope (.str "\x7d\x7d")) .anyc)
  | .enumBodyValue => .call .enumValue
  | .enumValue => pseq [.call .enumName, .quest (.call .enumArguments),
      .quest (.call .enumOrdinal), .call .semiColon]
  | .enumName => .call .typeIdentifier
  | .enumArguments => pseq [.call .leftParen, .call .value,
      .star (pseq [.call .comma, .call .value]), .call .rightParen]
  | .enumOrdinal => pseq [.call .equals, .call .value]
  | .optionDecl => pseq [.call .identifier, .call .value,
      .star (pseq [.call .comma, .call .value]), .call .semiColon]
  | .matchDecl => pseq [.call .matchKeyword, .call .leftCurly,
      .star (.call .matchMemberEntry), .call .rightCurly]
  | .matchMemberEntry => .call .matchMember
  | .matchMember => pseq [.call .matchCondition, .call .hashRocket,
      .call .value, .call .semiColon]
  | .matchCondition => palt [.call .matchVariable, .call .matchValue]
  | .matchVariable => pseq [.call .identifier, .call .colon, .call .typeSpec]
  | .matchValue => .call .value
  | .packageIdent => pseq [.call .identifier,
      .star (pseq [.call .dot, .call .identifier])]
  | .typeSpec => palt [.call .floatType, .call .doubleType, .call .signedType,
      .call .unsignedType, .call .booleanType, .call .stringType,
      .call .bytesType, .call .anyType, .call .mapType, .call .arrayType,
      .call .customType]
  | .floatType => .str "float"
  | .doubleType => .str "double"
  | .signedType => pseq [.str "signed", .quest (.call .typeBits)]
  | .unsignedType => pseq [.str "unsigned", .quest (.call .typeBits)]
  | .booleanType => .str "boolean"
  | .stringType => .str "string"
  | .bytesType => .str "bytes"
  | .anyType => .str "any"
  | .mapType => pseq [.call .leftCurly, .call .typeSpec, .call .colon,
      .call .typeSpec, .call .rightCurly]
  | .arrayType => pseq [.call .bracketStart, .call .typeSpec,
      .call .bracketEnd]
  | .customType => pseq [.quest (.call .usedPref), .call .typeIdentifier,
      .star (pseq [.call .dot, .call .typeIdentifier])]
  | .usedPref => pseq [.call .identifier, .call .scope]
  | .enumKeyword => .str "enum"
  | .useKeyword => .str "use"
  | .asKeyword => .str "as"
  | .packageKeyword => .str "package"
  | .typeKeyword => .str "type"
  | .tupleKeyword => .str "tuple"
  | .interfaceKeyword => .str "interface"
  | .matchKeyword => .str "match"
  | .hashRocket => .str "=>"
  | .comma => .str ","
  | .colon => .str ":"
  | .scope => .str "::"
  | .semiColon => .str ";"
  | .leftCurly => .str "\x7b"
  | .rightCurly => .str "\x7d"
  | .bracketStart => .str "["
  | .bracketEnd => .str "]"
  | .codeStart => .str "\x7b\x7b"
  | .codeEnd => .str "\x7d\x7d"
  | .leftParen => .str "("
  | .rightParen => .str ")"
  | .forwardSlash => .str "/"
  | .optionalMark => .str "?"
  | .equals => .str "="
  | .dot => .str "."
  | .typeBits => pseq [.call .forwardSlash, .call .unsignedRule]
  | .optionalValueList => pseq [.call .value,
      .star (pseq [.call .comma, .call .value])]
  | .value => palt [.call .instanceRule, .call .constantRule,
      .call .arrayRule, .call .booleanRule, .call .identifier,
      .call .stringRule, .call .numberRule]
  | .instanceRule => pseq [.call .customType, .call .instanceArguments]
  | .instanceArguments => pseq [.call .leftParen,
      .quest (pseq [.call .fieldInit,
        .star (pseq [.call .comma, .call .fieldInit])]),
      .call .rightParen]
  | .constantRule => .call .customType
  | .arrayRule => pseq [.call .bracketStart,
      .quest (.call .optionalValueList), .call .bracketEnd]
  | .fieldInit => pseq [.call .fieldName, .call .colon, .call .value]
  | .fieldName => .call .identifier
  | .identifier => pseq [.range 'a' 'z',
      .star (palt [.range '0' '9', .range 'a' 'z', .str "_"])]
  | .typeIdentifier => pseq [.range 'A' 'Z',
      .star (palt [.range 'A' 'Z', .range 'a' 'z', .range '0' '9'])]
  | .stringRule => pseq [.str "\"",
      .star (palt [.call .escapeRule,
        .seq (.nope (.alt (.str "\"") (.str "\\"))) .anyc]),
      .str "\""]
  | .escapeRule => pseq [.str "\\",
      palt [.str "\"", .str "\\", .str "/", .str "n", .str "r", .str "t",
        .call .unicodeRule]]
  | .unicodeRule => pseq [.str "u", .call .hexRule, .call .hexRule,
      .call .hexRule, .call .hexRule]
  | .hexRule => palt [.range '0' '9', .range 'a' 'f']
  | .unsignedRule => .call .intRule
  | .numberRule => pseq [.quest (.str "-"), .call .intRule,
      .quest (pseq [.str ".", .range '0' '9', .star (.range '0' '9')]),
      .quest (pseq [.str "e", .call .intRule])]
  | .intRule => .alt (.str "0")
      (.seq (.range '1' '9') (.star (.range '0' '9')))
  | .booleanRule => .alt (.str "true") (.str "false")
  | .whitespaceRule => palt [.str " ", .str "\t", .str "\r", .str "\n"]

/-- Match a literal prefix, returning the rest. -/
def dropPref : List Char → List Char → Option (List Char)
  | [], inp => some inp
  | _ :: _, [] => none
  | p :: ps, c :: cs => if p = c then dropPref ps cs else none

/-- The rest of a line comment: everything up to and including the line
ending (`\n`, `\r\n`, `\r` or end of input). -/
def skipLineRest : List Char → List Char
  | [] => []
  | '\n' :: rest => rest
  | '\r' :: '\n' :: rest => rest
  | '\r' :: rest => rest
  | _ :: rest => skipLineRest rest

/-- The rest of a block comment; `none` when `*/` never comes (the comment
rule fails, so nothing is consumed). -/
def skipBlockRest : List Char → Option (List Char)
  | [] => none
  | '*' :: '/' :: rest => some rest
  | _ :: rest => skipBlockRest rest

/-- The implicit `(whitespace | comment)*` consumed between expressions of
non-atomic rules. -/
def skipWs : Nat → List Char → List Char
  | 0, inp => inp
  | fuel + 1, inp =>
      match inp with
      | ' ' :: rest => skipWs fuel rest
      | '\t' :: rest => skipWs fuel rest
      | '\r' :: rest => skipWs fuel rest
      | '\n' :: rest => skipWs fuel rest
      | '/' :: '/' :: rest => skipWs fuel (skipLineRest rest)
      | '/' :: '*' :: rest =>
          match skipBlockRest rest with
          | some rest2 => skipWs fuel rest2
          | none => inp
      | _ => inp

mutual

/-- The PEG interpreter.  Returns the remaining input on success.  The
`atomic` flag suppresses the implicit whitespace skipping. -/
def interp : Nat → Bool → Peg → List Char → Option (List Char)
  | 0, _, _, _ => none
  | fuel + 1, atomic, p, inp =>
      match p with
      | .str s => dropPref s.toList inp
      | .range lo hi =>
          match inp with
          | c :: rest => if lo ≤ c ∧ c ≤ hi then some rest else none
          | [] => none
      | .anyc =>
          match inp with
          | _ :: rest => some rest
          | [] => none
      | .eoi =>
          match inp with
          | [] => some []
          | _ => none
      | .seq a b =>
          match interp fuel atomic a inp with
          | none => none
          | some rest =>
              interp fuel atomic b
                (if atomic then rest else skipWs rest.length rest)
      | .alt a b =>
          match interp fuel atomic a inp with
          | some rest => some rest
          | none => interp fuel atomic b inp
      | .quest a =>
          match interp fuel atomic a inp with
          | some rest => some rest
          | none => some inp
      | .nope a =>
          match interp fuel atomic a inp with
          | some _ => none
          | none => some inp
      | .star a => starRun fuel atomic a inp
      | .call r => interp fuel (atomic || isAtomic r) (grammar r) inp

/-- Repetition: repeat while progress is made, skipping whitespace between
iterations in non-atomic mode. -/
def starRun : Nat → Bool → Peg → List Char → Option (List Char)
  | 0, _, _, _ => none
  | fuel + 1, atomic, a, inp =>
      match interp fuel atomic a inp with
      | none => some inp
      | some rest =>
          if rest.length < inp.length then
            starRun fuel atomic a
              (if atomic then rest else skipWs rest.length rest)
          else some rest

end

/-- Fuel that is ample for the concrete inputs below. -/
def parseFuel : Nat := 5000

/-- `parser.file()` followed by `parser.end()`: the whole input is a
schema file. -/
def parsesFile (s : String) : Bool :=
  match interp parseFuel false (.call .file) s.toList with
  | some [] => true
  | _ => false

/-- The `string` token rule matches the whole input. -/
def acceptsStringLit (s : String) : Bool :=
  match interp parseFuel false (.call .stringRule) s.toList with
  | some [] => true
  | _ => false

/-!
## Escaped-string decoding (src/src/parser/parser.rs, lines 67-113)
-/

inductive EscErr where
  | invalidEscape
  | msg (s : String)
deriving DecidableEq

/-- `u32::from_str_radix(&c, 16)` on a one-character string. -/
def hexVal (c : Char) : Option Nat :=
  if '0' ≤ c ∧ c ≤ '9' then some (c.toNat - '0'.toNat)
  else if 'a' ≤ c ∧ c ≤ 'f' then some (c.toNat - 'a'.toNat + 10)
  else if 'A' ≤ c ∧ c ≤ 'F' then some (c.toNat - 'A'.toNat + 10)
  else none

/-- One step of `decode_unicode4`: `it.next().ok_or("expected hex
character")?` then the radix parse. -/
def readHex : List Char → Except EscErr (Nat × List Char)
  | [] => .error (.msg "expected hex character")
  | c :: rest =>
      match hexVal c with
      | some v => .ok (v, rest)
      | none => .error (.msg "invalid digit found in string")

/-- `decode_unicode4` (src/src/parser/parser.rs, lines 102-113): four hex
digits, shifted by `4 * (3 - x)`, then `char::from_u32` (which rejects
surrogates and out-of-range values).  Consumes exactly the characters it
reads. -/
def decodeUnicode4 (it : List Char) : Except EscErr (Char × List Char) := do
  let (v1, it1) ← readHex it
  let (v2, it2) ← readHex it1
  let (v3, it3) ← readHex it2
  let (v4, it4) ← readHex it3
  let res := v1 * 4096 + v2 * 256 + v3 * 16 + v4
  if res < 55296 ∨ (57344 ≤ res ∧ res < 1114112) then
    .ok (Char.ofNat res, it4)
  else
    .error (.msg "expected valid character")

/-- The loop of `decode_escaped_string` (src/src/parser/parser.rs,
lines 67-100): skip the opening quote (done by the caller), stop before
the closing quote, decode the escapes.  On success `decode_unicode4`
consumes exactly four characters, hence the `take`/`drop`.  The loop
consumes at least one character per step, so fuel of one more than the
input length never runs out. -/
def decodeGo : Nat → List Char → String → Except EscErr String
  | 0, _, _ => .error (.msg "fuel exhausted")
  | _ + 1, [], out => .ok out
  | fuel + 1, c :: rest, out =>
      if rest.isEmpty then .ok out
      else if c = '\\' then
        match rest with
        | [] => .error (.msg "expected character")
        | e :: rest2 =>
            match e with
            | 'n' => decodeGo fuel rest2 (out.push '\n')
            | 'r' => decodeGo fuel rest2 (out.push '\r')
            | 't' => decodeGo fuel rest2 (out.push '\t')
            | 'u' =>
                match decodeUnicode4 (rest2.take 4) with
                | .ok (ch, _) => decodeGo fuel (rest2.drop 4) (out.push ch)
                | .error err => .error err
            | _ => .error .invalidEscape
      else decodeGo fuel rest (out.push c)

/-- `decode_escaped_string` (src/src/parser/parser.rs, lines 67-100):
`input.chars().skip(1)` then the loop. -/
def decodeEscapedString (input : String) : Except EscErr String :=
  decodeGo (input.length + 1) (input.toList.drop 1) ""

end Reproto

/-- Claim C1, counterexample: the code-block merge appends the second list to
the first, so it is not commutative: merging `[codeBlockA]` with
`[codeBlockB]` and merging them in the other order both succeed but give
different results. -/
theorem c1_merge_not_commutative :
    Reproto.mergeCodes [Reproto.codeBlockA] [Reproto.codeBlockB]
      ≠ Reproto.mergeCodes [Reproto.codeBlockB] [Reproto.codeBlockA] := by
  simp only [Reproto.mergeCodes, Reproto.codeBlockA, Reproto.codeBlockB]
  intro h
  simp at h

/-- Claim C1, amended: the code-block merge always succeeds and is
associative: merging `a` with `b` and the result with `c` equals merging
`a` with the merge of `b` and `c`. (Commutativity fails, see the
counterexample.) -/
theorem c1_merge_assoc (a b c : List (Reproto.RpLoc Reproto.RpCode)) :
    (Reproto.mergeCodes a b).bind (fun ab => Reproto.mergeCodes ab c)
      = (Reproto.mergeCodes b c).bind (fun bc => Reproto.mergeCodes a bc) := by
  simp [Reproto.mergeCodes, Except.bind, List.append_assoc]

/-- Claim C10: assignability is exactly pointer-identity on same-kind
registrations plus the two downward cases — an interface is assignable from
a sub-type whose parent is that interface, and an enum from one of its
constants; nothing else (in particular no converse direction and no other
cross-kind pair) is assignable. -/
theorem c10_assignable_characterization (a b : Reproto.RpRegistered) :
    Reproto.isAssignableFrom a b = true ↔
      a = b
        ∨ (∃ p s, a = Reproto.RpRegistered.interface p
              ∧ b = Reproto.RpRegistered.subTypeOf p s)
        ∨ (∃ p v, a = Reproto.RpRegistered.enum_ p
              ∧ b = Reproto.RpRegistered.enumConstant p v) := by
  cases a <;> cases b <;>
    simp [Reproto.isAssignableFrom] <;>
    aesop

/-- Claim C6: listing the fields of a registered sub-type yields the parent
interface's fields followed by the sub-type's own fields; types and tuples
list their own fields; interfaces, enums, services and enum constants give
an error. -/
theorem c6_registered_fields (ar : Reproto.Arena) (p s body : Nat) :
    Reproto.registeredFields ar (Reproto.RpRegistered.subTypeOf p s)
        = Except.ok ((ar.interfaceBody p).fields ++ (ar.subTypeBody s).fields)
      ∧ Reproto.registeredFields ar (Reproto.RpRegistered.type_ body)
          = Except.ok (ar.typeBody body).fields
      ∧ Reproto.registeredFields ar (Reproto.RpRegistered.tuple body)
          = Except.ok (ar.tupleBody body).fields
      ∧ Reproto.registeredFields ar (Reproto.RpRegistered.interface body)
          = Except.error "has no fields"
      ∧ Reproto.registeredFields ar (Reproto.RpRegistered.enum_ body)
          = Except.error "has no fields"
      ∧ Reproto.registeredFields ar (Reproto.RpRegistered.service body)
          = Except.error "has no fields"
      ∧ Reproto.registeredFields ar (Reproto.RpRegistered.enumConstant p s)
          = Except.error "has no fields" := by
  refine ⟨rfl, rfl, rfl, rfl, rfl, rfl, rfl⟩

/-- Claim C5: the rust backend maps a signed or unsigned integer type to the
32-bit target type when the bit-width is absent or at most 32, and to the
64-bit target type otherwise. -/
theorem c5_integer_width (b : Reproto.RustBackendM) (pos : Reproto.RpPos)
    (size : Option Nat) :
    Reproto.intoRustType b pos (Reproto.RpType.signed size)
        = Except.ok (match size with
            | none => "i32"
            | some s => if s ≤ 32 then "i32" else "i64")
      ∧ Reproto.intoRustType b pos (Reproto.RpType.unsigned size)
          = Except.ok (match size with
              | none => "u32"
              | some s => if s ≤ 32 then "u32" else "u64") := by
  cases size <;> simp [Reproto.intoRustType]


/-- Helper: the check loop with an arbitrary accumulator, assuming every
remaining `semck_check` call succeeds. -/
theorem checkLoop_spec {α β : Type} (semckCheck : α → Except String (List β))
    (results : List α) (acc : List β)
    (h : ∀ m ∈ results, (semckCheck m).isOk = true) :
    Reproto.checkLoop semckCheck results acc =
      (if (acc ++ Reproto.collectErrors semckCheck results).length > 0 then
        Except.error (Reproto.CheckError.errors
          (acc ++ Reproto.collectErrors semckCheck results))
      else Except.ok ()) := by
  induction results generalizing acc with
  | nil => simp [Reproto.checkLoop, Reproto.collectErrors]
  | cons m rest ih =>
      have hm := h m (List.mem_cons_self m rest)
      obtain ⟨l, hl⟩ : ∃ l, semckCheck m = Except.ok l := by
        cases hsem : semckCheck m with
        | ok l => exact ⟨l, rfl⟩
        | error e => rw [hsem] at hm; simp [Except.isOk, Except.toBool] at hm
      have hrest : ∀ x ∈ rest, (semckCheck x).isOk = true :=
        fun x hx => h x (List.mem_cons_of_mem m hx)
      simp only [Reproto.checkLoop, hl, ih (acc ++ l) hrest,
        Reproto.collectErrors, List.foldr_cons, Reproto.okList, hl,
        List.append_assoc]

/-- Helper: the accumulated batch is empty iff every package contributed no
errors. -/
theorem collectErrors_eq_nil {α β : Type} (semckCheck : α → Except String (List β))
    (results : List α)
    (h : ∀ m ∈ results, (semckCheck m).isOk = true) :
    Reproto.collectErrors semckCheck results = []
      ↔ ∀ m ∈ results, semckCheck m = Except.ok ([] : List β) := by
  induction results with
  | nil => simp [Reproto.collectErrors]
  | cons m rest ih =>
      have hm := h m (List.mem_cons_self m rest)
      obtain ⟨l, hl⟩ : ∃ l, semckCheck m = Except.ok l := by
        cases hsem : semckCheck m with
        | ok l => exact ⟨l, rfl⟩
        | error e => rw [hsem] at hm; simp [Except.isOk, Except.toBool] at hm
      have hrest : ∀ x ∈ rest, (semckCheck x).isOk = true :=
        fun x hx => h x (List.mem_cons_of_mem m hx)
      show Reproto.okList (semckCheck m) ++ Reproto.collectErrors semckCheck rest = []
        ↔ _
      rw [hl]
      simp only [Reproto.okList, List.append_eq_nil]
      constructor
      · rintro ⟨h1, h2⟩ x hx
        rcases List.mem_cons.mp hx with rfl | hx'
        · rw [hl, h1]
        · exact (ih hrest).mp h2 x hx'
      · intro hall
        refine ⟨?_, (ih hrest).mpr fun x hx => hall x (List.mem_cons_of_mem m hx)⟩
        have := hall m (List.mem_cons_self m rest)
        rw [hl] at this
        exact (Except.ok.injEq _ _).mp this

/-- Claim C8: when no package aborts the run fatally, the check succeeds
iff no package produced a semver error; otherwise it returns one error
wrapping the whole accumulated batch, in package order. -/
theorem c8_check_accumulates {α β : Type} (semckCheck : α → Except String (List β))
    (results : List α)
    (h : ∀ m ∈ results, (semckCheck m).isOk = true) :
    (Reproto.checkInner semckCheck results = Except.ok ()
        ↔ ∀ m ∈ results, semckCheck m = Except.ok ([] : List β))
      ∧ (Reproto.collectErrors semckCheck results ≠ [] →
          Reproto.checkInner semckCheck results
            = Except.error (Reproto.CheckError.errors
                (Reproto.collectErrors semckCheck results))) := by
  have hspec := checkLoop_spec semckCheck results [] h
  rw [List.nil_append] at hspec
  constructor
  · simp only [Reproto.checkInner]
    rw [hspec, ← collectErrors_eq_nil semckCheck results h]
    by_cases hc : Reproto.collectErrors semckCheck results = []
    · simp [hc]
    · have : (Reproto.collectErrors semckCheck results).length > 0 :=
        List.length_pos_of_ne_nil hc
      simp only [this, if_pos]
      constructor
      · intro hcontra; cases hcontra
      · intro hnil; exact absurd hnil hc
  · intro hne
    have : (Reproto.collectErrors semckCheck results).length > 0 :=
      List.length_pos_of_ne_nil hne
    simp only [Reproto.checkInner]
    rw [hspec]
    simp [this]

/-- Witness for claim C8: with two matched packages each contributing one
semver error, the check fails with both errors batched. -/
theorem c8_witness :
    Reproto.checkInner Reproto.exampleSemck Reproto.exampleResults
      = Except.error (Reproto.CheckError.errors
          (Reproto.collectErrors Reproto.exampleSemck Reproto.exampleResults)) :=
  (c8_check_accumulates Reproto.exampleSemck Reproto.exampleResults
    (by decide)).2 (by decide)

/-- Helper: one step of the write loop. -/
theorem writeEntries_cons (e : Reproto.ModPath × List String)
    (rest : List (Reproto.ModPath × List String)) (fs : Reproto.FileSystem) :
    Reproto.writeEntries (e :: rest) fs =
      Reproto.writeEntries rest
        (if (fs e.1).isSome then fs
         else fun q => if q = e.1 then some (Reproto.renderModFile e.2) else fs q) :=
  rfl

/-- Helper: the write loop never modifies a path that already holds a file. -/
theorem writeEntries_preserves (entries : List (Reproto.ModPath × List String))
    (fs : Reproto.FileSystem) (p : Reproto.ModPath) (hp : (fs p).isSome = true) :
    Reproto.writeEntries entries fs p = fs p := by
  induction entries generalizing fs with
  | nil => rfl
  | cons e rest ih =>
      rw [writeEntries_cons]
      by_cases he : (fs e.1).isSome = true
      · rw [if_pos he]
        exact ih fs hp
      · rw [if_neg he]
        have hne : p ≠ e.1 := fun hq => he (hq ▸ hp)
        have hfs' : (if p = e.1 then some (Reproto.renderModFile e.2) else fs p)
            = fs p := by simp [hne]
        rw [ih _ (by simp only [hfs']; exact hp)]
        exact hfs'

/-- Helper: after the write loop every entry's path holds a file. -/
theorem writeEntries_covers (entries : List (Reproto.ModPath × List String))
    (fs : Reproto.FileSystem) (e : Reproto.ModPath × List String)
    (he : e ∈ entries) :
    ((Reproto.writeEntries entries fs) e.1).isSome = true := by
  induction entries generalizing fs with
  | nil => cases he
  | cons e0 rest ih =>
      rw [writeEntries_cons]
      rcases List.mem_cons.mp he with rfl | hmem
      · by_cases h0 : (fs e.1).isSome = true
        · rw [if_pos h0, writeEntries_preserves rest fs e.1 h0]
          exact h0
        · rw [if_neg h0]
          have hsome : ((fun q => if q = e.1 then some (Reproto.renderModFile e.2)
              else fs q) e.1).isSome = true := by simp
          rw [writeEntries_preserves _ _ e.1 hsome]
          exact hsome
      · by_cases h0 : (fs e0.1).isSome = true
        · rw [if_pos h0]; exact ih _ hmem
        · rw [if_neg h0]; exact ih _ hmem

/-- Helper: the write loop leaves the filesystem untouched when every entry's
path already holds a file. -/
theorem writeEntries_stable (entries : List (Reproto.ModPath × List String))
    (fs : Reproto.FileSystem)
    (h : ∀ e ∈ entries, ((fs e.1).isSome = true)) :
    Reproto.writeEntries entries fs = fs := by
  induction entries with
  | nil => rfl
  | cons e rest ih =>
      rw [writeEntries_cons, if_pos (h e (List.mem_cons_self e rest))]
      exact ih fun x hx => h x (List.mem_cons_of_mem e hx)

/-- Claim C9: mod-file emission never rewrites an existing file, and running
`write_mod_files` a second time over the same package set leaves the
filesystem byte-identical. -/
theorem c9_mod_files_idempotent (c : Reproto.RustCompilerM)
    (files : List (List String)) (fs : Reproto.FileSystem) :
    (∀ p, (fs p).isSome = true → Reproto.writeModFiles c files fs p = fs p)
      ∧ Reproto.writeModFiles c files (Reproto.writeModFiles c files fs)
          = Reproto.writeModFiles c files fs := by
  constructor
  · intro p hp
    exact writeEntries_preserves _ fs p hp
  · exact writeEntries_stable _ _
      (fun e he => writeEntries_covers (Reproto.buildPackages c files) fs e he)

/-- Helper: a line has no indent index iff it is all indentation. -/
theorem findIndentAux_eq_none (cs : List Char) :
    Reproto.findIndentAux cs = none ↔ cs.all Reproto.isIndentChar = true := by
  induction cs with
  | nil => simp [Reproto.findIndentAux]
  | cons c rest ih =>
      by_cases hc : Reproto.isIndentChar c = true
      · simp [Reproto.findIndentAux, hc, ih, Option.map_eq_none']
      · simp [Reproto.findIndentAux, hc]

/-- Helper: blankness in terms of `find_indent`. -/
theorem blankLine_iff_find_indent (s : String) :
    Reproto.blankLine s = true ↔ Reproto.find_indent s = none := by
  rw [Reproto.blankLine, Reproto.find_indent, findIndentAux_eq_none]

/-- Helper: everything before the found indent index is indentation. -/
theorem findIndentAux_take (cs : List Char) (k : Nat)
    (h : Reproto.findIndentAux cs = some k) :
    (cs.take k).all Reproto.isIndentChar = true := by
  induction cs generalizing k with
  | nil => simp [Reproto.findIndentAux] at h
  | cons c rest ih =>
      by_cases hc : Reproto.isIndentChar c = true
      · simp only [Reproto.findIndentAux, hc, if_pos] at h
        rcases Option.map_eq_some'.mp h with ⟨k0, hk0, rfl⟩
        simp only [List.take_succ_cons, List.all_cons, hc, Bool.true_and]
        exact ih k0 hk0
      · simp only [Reproto.findIndentAux, hc, if_neg, Bool.not_eq_true] at h
        cases h
        simp

/-- Helper: the indent component of the fold is the running minimum of the
non-blank lines' indents. -/
theorem cbi_indent (ls : List String) (n : Nat) (i0 : Option Nat)
    (s e : Nat) (f : Bool) :
    (Reproto.codeBlockIndentGo ls n i0 s e f).1 =
      match i0 with
      | none => (ls.filterMap Reproto.find_indent).min?
      | some i => some (List.foldl min i (ls.filterMap Reproto.find_indent)) := by
  induction ls generalizing n i0 s e f with
  | nil =>
      cases i0 <;> simp [Reproto.codeBlockIndentGo, List.min?]
  | cons l rest ih =>
      cases hl : Reproto.find_indent l with
      | none =>
          have hfm : List.filterMap Reproto.find_indent (l :: rest)
              = List.filterMap Reproto.find_indent rest := by
            rw [List.filterMap_cons, hl]
          simp only [Reproto.codeBlockIndentGo, hl, hfm]
          exact ih _ _ _ _ _
      | some c =>
          have hfm : List.filterMap Reproto.find_indent (l :: rest)
              = c :: List.filterMap Reproto.find_indent rest := by
            rw [List.filterMap_cons, hl]
          simp only [Reproto.codeBlockIndentGo, hl, hfm]
          cases i0 with
          | none =>
              simp only [Option.map_none', Option.getD_none, if_true]
              rw [ih _ _ _ _ _, List.min?_cons']
          | some i =>
              simp only [Option.map_some', Option.getD_some]
              by_cases hic : i > c
              · rw [if_pos (decide_eq_true hic), ih _ _ _ _ _, List.foldl_cons,
                  Nat.min_eq_right (Nat.le_of_lt hic)]
              · rw [if_neg (by simp [hic]), ih _ _ _ _ _, List.foldl_cons,
                  Nat.min_eq_left (Nat.le_of_not_lt hic)]

/-- Helper: the leading-blank count of the fold. -/
theorem cbi_start (ls : List String) (n : Nat) (i0 : Option Nat)
    (s e : Nat) (f : Bool) :
    (Reproto.codeBlockIndentGo ls n i0 s e f).2.1 =
      if f then s else s + (ls.takeWhile Reproto.blankLine).length := by
  induction ls generalizing n i0 s e f with
  | nil => cases f <;> simp [Reproto.codeBlockIndentGo]
  | cons l rest ih =>
      cases hl : Reproto.find_indent l with
      | none =>
          have hb : Reproto.blankLine l = true := (blankLine_iff_find_indent l).mpr hl
          simp only [Reproto.codeBlockIndentGo, hl]
          rw [ih _ _ _ _ _]
          cases f with
          | true => simp
          | false => simp [List.takeWhile_cons, hb, Nat.add_comm, Nat.add_assoc,
              Nat.add_left_comm]
      | some c =>
          have hb : Reproto.blankLine l = false := by
            rcases hb : Reproto.blankLine l with _ | _
            · rfl
            · rw [(blankLine_iff_find_indent l).mp hb] at hl; cases hl
          simp only [Reproto.codeBlockIndentGo, hl]
          rw [ih _ _ _ _ _]
          cases f <;> simp [List.takeWhile_cons, hb]

/-- Helper: `takeWhile` over an append stops inside the first part when the
first part contains a failing element. -/
theorem takeWhile_append_of_exists {α : Type} (p : α → Bool) (u v : List α)
    (h : ∃ x ∈ u, p x = false) :
    (u ++ v).takeWhile p = u.takeWhile p := by
  induction u with
  | nil => rcases h with ⟨x, hx, _⟩; cases hx
  | cons a u ih =>
      rcases h with ⟨x, hx, hpx⟩
      by_cases ha : p a = true
      · rcases List.mem_cons.mp hx with rfl | hx'
        · rw [ha] at hpx; cases hpx
        · simp only [List.cons_append, List.takeWhile_cons, ha, if_true]
          rw [ih ⟨x, hx', hpx⟩]
      · simp only [List.cons_append, List.takeWhile_cons, if_neg ha]

/-- Helper: `takeWhile` over an append passes the whole first part when it
all satisfies the predicate. -/
theorem takeWhile_append_of_all {α : Type} (p : α → Bool) (u v : List α)
    (h : u.all p = true) :
    (u ++ v).takeWhile p = u ++ v.takeWhile p := by
  induction u with
  | nil => simp
  | cons a u ih =>
      rw [List.all_cons, Bool.and_eq_true] at h
      rcases h with ⟨ha, hu⟩
      simp only [List.cons_append, List.takeWhile_cons, ha, if_true, ih hu]

/-- Helper: `dropWhile` drops exactly the `takeWhile` prefix. -/
theorem dropWhile_eq_drop {α : Type} (p : α → Bool) (l : List α) :
    l.dropWhile p = l.drop (l.takeWhile p).length := by
  induction l with
  | nil => rfl
  | cons a l ih =>
      by_cases ha : p a = true
      · simp [List.dropWhile_cons, List.takeWhile_cons, ha, ih]
      · simp [List.dropWhile_cons, List.takeWhile_cons, ha]

/-- Helper: the `takeWhile` prefix is no longer than the list. -/
theorem length_takeWhile_le' {α : Type} (p : α → Bool) (l : List α) :
    (l.takeWhile p).length ≤ l.length := by
  conv_rhs => rw [← List.takeWhile_append_dropWhile p l]
  rw [List.length_append]
  omega

/-- Helper: the end-of-last-non-blank component of the fold. -/
theorem cbi_stop (ls : List String) (n : Nat) (i0 : Option Nat)
    (s e : Nat) (f : Bool) :
    (Reproto.codeBlockIndentGo ls n i0 s e f).2.2 =
      if ls.any (fun l => !Reproto.blankLine l) then
        n + (ls.length - (ls.reverse.takeWhile Reproto.blankLine).length)
      else e := by
  induction ls generalizing n i0 s e f with
  | nil => simp [Reproto.codeBlockIndentGo]
  | cons l rest ih =>
      cases hl : Reproto.find_indent l with
      | some c =>
          have hb : Reproto.blankLine l = false := by
            rcases hbl : Reproto.blankLine l with _ | _
            · rfl
            · rw [(blankLine_iff_find_indent l).mp hbl] at hl; cases hl
          simp only [Reproto.codeBlockIndentGo, hl]
          rw [ih _ _ _ _ _]
          have hany : (l :: rest).any (fun l => !Reproto.blankLine l) = true := by
            simp [hb]
          rw [if_pos hany]
          by_cases hrest : rest.any (fun l => !Reproto.blankLine l) = true
          · rw [if_pos hrest]
            have hex : ∃ x ∈ rest.reverse, Reproto.blankLine x = false := by
              rcases List.any_eq_true.mp hrest with ⟨x, hx, hpx⟩
              exact ⟨x, List.mem_reverse.mpr hx, (by simpa using hpx)⟩
            have htw : ((l :: rest).reverse.takeWhile Reproto.blankLine)
                = rest.reverse.takeWhile Reproto.blankLine := by
              rw [List.reverse_cons]
              exact takeWhile_append_of_exists _ _ _ hex
            rw [htw]
            have hle := length_takeWhile_le' Reproto.blankLine rest.reverse
            rw [List.length_reverse] at hle
            simp only [List.length_cons]
            omega
          · rw [if_neg hrest]
            have hall : rest.reverse.all Reproto.blankLine = true := by
              rw [List.all_eq_true]
              intro x hx
              rcases hbx : Reproto.blankLine x with _ | _
              · exact absurd (List.any_eq_true.mpr
                  ⟨x, List.mem_reverse.mp hx, by simp [hbx]⟩) hrest
              · rfl
            have htw : ((l :: rest).reverse.takeWhile Reproto.blankLine)
                = rest.reverse := by
              rw [List.reverse_cons, takeWhile_append_of_all _ _ _ hall]
              simp [List.takeWhile_cons, hb]
            rw [htw, List.length_reverse]
            simp only [List.length_cons]
            omega
      | none =>
          have hb : Reproto.blankLine l = true := (blankLine_iff_find_indent l).mpr hl
          simp only [Reproto.codeBlockIndentGo, hl]
          rw [ih _ _ _ _ _]
          have hany : (l :: rest).any (fun l => !Reproto.blankLine l)
              = rest.any (fun l => !Reproto.blankLine l) := by
            simp [hb]
          rw [hany]
          by_cases hrest : rest.any (fun l => !Reproto.blankLine l) = true
          · rw [if_pos hrest, if_pos hrest]
            have hex : ∃ x ∈ rest.reverse, Reproto.blankLine x = false := by
              rcases List.any_eq_true.mp hrest with ⟨x, hx, hpx⟩
              exact ⟨x, List.mem_reverse.mpr hx, (by simpa using hpx)⟩
            have htw : ((l :: rest).reverse.takeWhile Reproto.blankLine)
                = rest.reverse.takeWhile Reproto.blankLine := by
              rw [List.reverse_cons]
              exact takeWhile_append_of_exists _ _ _ hex
            rw [htw]
            have hle := length_takeWhile_le' Reproto.blankLine rest.reverse
            rw [List.length_reverse] at hle
            simp only [List.length_cons]
            omega
          · rw [if_neg hrest, if_neg hrest]

/-- Helper: the head surviving `dropWhile` fails the predicate. -/
theorem dropWhile_head_false {α : Type} (p : α → Bool) (l : List α) (x : α)
    (xs : List α) (h : l.dropWhile p = x :: xs) : p x = false := by
  induction l with
  | nil => cases h
  | cons a l ih =>
      by_cases ha : p a = true
      · rw [List.dropWhile_cons, if_pos ha] at h; exact ih h
      · rw [List.dropWhile_cons, if_neg ha] at h
        cases h
        simpa using ha

/-- Claim C4, amended: on every code-block body with at least one non-blank
line, `strip_code_block` returns exactly the lines with leading and
trailing all-blank lines dropped and the minimum indentation removed from
each remaining line (lines shorter than the minimum kept whole), and the
removed prefix of every remaining line consists of whitespace characters
only. -/
theorem c4_strip_code_block (lines : List String)
    (h : lines.any (fun l => !Reproto.blankLine l) = true) :
    Reproto.strip_code_block lines = Reproto.stripCodeBlockSpec lines
      ∧ ∀ ind, Reproto.minIndentOf lines = some ind →
          ∀ l ∈ ((lines.dropWhile Reproto.blankLine).reverse.dropWhile
              Reproto.blankLine).reverse,
            (l.toList.take ind).all Reproto.isIndentChar = true := by
  obtain ⟨x, hx, hpx⟩ := List.any_eq_true.mp h
  have hbx : Reproto.blankLine x = false := by simpa using hpx
  obtain ⟨k, hk⟩ : ∃ k, Reproto.find_indent x = some k := by
    cases hfi : Reproto.find_indent x with
    | none =>
        rw [(blankLine_iff_find_indent x).mpr hfi] at hbx
        cases hbx
    | some k => exact ⟨k, rfl⟩
  have hkmem : k ∈ lines.filterMap Reproto.find_indent :=
    List.mem_filterMap.mpr ⟨x, hx, hk⟩
  obtain ⟨ind, hmo⟩ : ∃ ind, (lines.filterMap Reproto.find_indent).min? = some ind := by
    rcases hmo : (lines.filterMap Reproto.find_indent).min? with _ | ind
    · have := List.isSome_min?_of_mem hkmem
      rw [hmo] at this
      cases this
    · exact ⟨ind, rfl⟩
  have hbound : ∀ b ∈ lines.filterMap Reproto.find_indent, ind ≤ b :=
    ((List.min?_eq_some_iff (fun a => Nat.le_refl a)
      (fun a b => by
        rcases Nat.le_total a b with h' | h'
        · exact Or.inl (Nat.min_eq_left h')
        · exact Or.inr (Nat.min_eq_right h'))
      (fun a b c => Nat.le_min)).mp hmo).2
  -- the three components of the fold
  rcases hgo : Reproto.codeBlockIndentGo lines 0 none 0 0 false with ⟨io, st, en⟩
  have h1 := cbi_indent lines 0 none 0 0 false
  have h2 := cbi_start lines 0 none 0 0 false
  have h3 := cbi_stop lines 0 none 0 0 false
  rw [hgo] at h1 h2 h3
  simp only at h1 h2 h3
  rw [hmo] at h1
  rw [if_neg (by simp)] at h2
  rw [if_pos h] at h3
  simp only [Nat.zero_add] at h2 h3
  have hcbi : Reproto.code_block_indent lines =
      some (ind, (lines.takeWhile Reproto.blankLine).length,
        (lines.length - (lines.reverse.takeWhile Reproto.blankLine).length)
          - (lines.takeWhile Reproto.blankLine).length) := by
    rw [Reproto.code_block_indent, hgo, h1, h2, h3]
  have hstrip : Reproto.strip_code_block lines =
      ((lines.drop (lines.takeWhile Reproto.blankLine).length).take
          ((lines.length - (lines.reverse.takeWhile Reproto.blankLine).length)
            - (lines.takeWhile Reproto.blankLine).length)).map
        (fun line => if line.length < ind then line else line.drop ind) := by
    rw [Reproto.strip_code_block, hcbi]
  have hspec : Reproto.stripCodeBlockSpec lines =
      (((lines.dropWhile Reproto.blankLine).reverse.dropWhile
          Reproto.blankLine).reverse).map
        (fun line => if line.length < ind then line else line.drop ind) := by
    rw [Reproto.stripCodeBlockSpec, Reproto.minIndentOf, hmo]
  -- the trimmed list of the spec equals the drop/take window of the code
  have hXne : lines.dropWhile Reproto.blankLine ≠ [] := by
    intro hnil
    have hlines : lines.takeWhile Reproto.blankLine = lines := by
      have := List.takeWhile_append_dropWhile Reproto.blankLine lines
      rw [hnil, List.append_nil] at this
      exact this
    have hax : Reproto.blankLine x = true := List.mem_takeWhile_imp (hlines ▸ hx)
    rw [hax] at hbx
    cases hbx
  obtain ⟨y, ys, hys⟩ := List.exists_cons_of_ne_nil hXne
  have hy : Reproto.blankLine y = false :=
    dropWhile_head_false Reproto.blankLine lines y ys hys
  have ht' : ((lines.dropWhile Reproto.blankLine).reverse.takeWhile
      Reproto.blankLine).length
      = (lines.reverse.takeWhile Reproto.blankLine).length := by
    have hsplit : lines.reverse
        = (lines.dropWhile Reproto.blankLine).reverse
          ++ (lines.takeWhile Reproto.blankLine).reverse := by
      rw [← List.reverse_append, List.takeWhile_append_dropWhile]
    have hex : ∃ z ∈ (lines.dropWhile Reproto.blankLine).reverse,
        Reproto.blankLine z = false := ⟨y, by rw [hys]; simp, hy⟩
    rw [hsplit, takeWhile_append_of_exists _ _ _ hex]
  have htrim : ((lines.dropWhile Reproto.blankLine).reverse.dropWhile
      Reproto.blankLine).reverse
      = (lines.drop (lines.takeWhile Reproto.blankLine).length).take
          ((lines.length - (lines.takeWhile Reproto.blankLine).length)
            - (lines.reverse.takeWhile Reproto.blankLine).length) := by
    rw [dropWhile_eq_drop Reproto.blankLine
        (lines.dropWhile Reproto.blankLine).reverse, ht', List.drop_reverse,
      List.reverse_reverse, dropWhile_eq_drop Reproto.blankLine lines,
      List.length_drop]
  constructor
  · rw [hstrip, hspec, htrim]
    have harith : (lines.length
          - (lines.reverse.takeWhile Reproto.blankLine).length)
          - (lines.takeWhile Reproto.blankLine).length
        = (lines.length - (lines.takeWhile Reproto.blankLine).length)
          - (lines.reverse.takeWhile Reproto.blankLine).length := by
      omega
    rw [harith]
  · intro ind' hind' l hl
    have hind : ind' = ind := by
      rw [Reproto.minIndentOf, hmo] at hind'
      exact (Option.some.injEq _ _).mp hind'.symm
    rw [hind]
    have hlmem : l ∈ lines := by
      rw [htrim] at hl
      exact List.drop_subset _ _ (List.take_subset _ _ hl)
    by_cases hbl : Reproto.blankLine l = true
    · rw [Reproto.blankLine] at hbl
      rw [List.all_eq_true] at hbl ⊢
      exact fun c hc => hbl c (List.take_subset _ _ hc)
    · obtain ⟨k', hk'⟩ : ∃ k', Reproto.find_indent l = some k' := by
        cases hfi : Reproto.find_indent l with
        | none => exact absurd ((blankLine_iff_find_indent l).mpr hfi) hbl
        | some k' => exact ⟨k', rfl⟩
      have hle : ind ≤ k' :=
        hbound k' (List.mem_filterMap.mpr ⟨l, hlmem, hk'⟩)
      have hpre : (l.toList.take k').all Reproto.isIndentChar = true :=
        findIndentAux_take l.toList k' hk'
      rw [List.all_eq_true] at hpre ⊢
      intro c hc
      apply hpre
      have htk : (l.toList.take k').take ind = l.toList.take ind := by
        rw [List.take_take, Nat.min_eq_left hle]
      exact List.take_subset _ _ (htk ▸ hc)

/-- Claim C4, counterexample: on a body that is a single all-blank line,
`strip_code_block` returns the line unchanged, while the claimed
description (leading and trailing all-blank lines dropped) yields the
empty list. -/
theorem c4_counterexample :
    Reproto.strip_code_block [" "] ≠ Reproto.stripCodeBlockSpec [" "]
      ∧ Reproto.strip_code_block [" "] = [" "]
      ∧ Reproto.stripCodeBlockSpec [" "] = [] := by
  refine ⟨by decide, by decide, by decide⟩

/-- Witness for claim C4 at the source's own test vector. -/
theorem c4_witness :
    Reproto.strip_code_block ["", "   hello", "  world", "", "", " again", "", ""]
      = Reproto.stripCodeBlockSpec
          ["", "   hello", "  world", "", "", " again", "", ""] :=
  (c4_strip_code_block ["", "   hello", "  world", "", "", " again", "", ""]
    (by decide)).1

/-- Helper: a successful `mapM` over `Except` relates inputs and outputs
pointwise. -/
theorem exceptMapM_ok_forall2 {α β : Type} (f : α → Except String β)
    (xs : List α) (ys : List β) (h : xs.mapM f = Except.ok ys) :
    List.Forall₂ (fun x y => f x = Except.ok y) xs ys := by
  induction xs generalizing ys with
  | nil =>
      rw [List.mapM_nil] at h
      cases h
      exact List.Forall₂.nil
  | cons a l ih =>
      rw [List.mapM_cons] at h
      cases hfa : f a with
      | error e => rw [hfa] at h; cases h
      | ok b =>
          rw [hfa] at h
          cases hml : l.mapM f with
          | error e => rw [hml] at h; cases h
          | ok bs =>
              rw [hml] at h
              cases h
              exact List.Forall₂.cons hfa (ih bs hml)

/-- Claim C7: interface emission yields an enum carrying the serde
attribute tagging on a field named `type`, whose elements are the
rust-context code blocks followed by one variant per sub-type; each
variant holds the interface's shared fields followed by that sub-type's
own fields, in order. -/
theorem c7_interface_tagged_union (b : Reproto.RustBackendM)
    (pos : Reproto.RpPos) (typeName : String) (body : Reproto.RpInterfaceBody)
    (spec : Reproto.EnumSpec)
    (h : Reproto.processInterface b pos typeName body = Except.ok spec) :
    "#[serde(tag = \"type\")]" ∈ spec.attributes
      ∧ ∃ variants,
          spec.elements = Reproto.forContext body.codes "rust" ++ variants
          ∧ List.Forall₂ (fun (st : Reproto.RpSubTypeBody) element =>
              ∃ fieldLines,
                (body.fields ++ st.fields).mapM (Reproto.fieldElement b pos)
                    = Except.ok fieldLines
                  ∧ element =
                      (match st.names.head? with
                       | some n => ["#[serde(rename = \"" ++ n ++ "\")]"]
                       | none => [])
                      ++ [st.name ++ " \x7b"]
                      ++ fieldLines.flatten
                      ++ ["\x7d,"])
            body.subTypes variants := by
  rw [Reproto.processInterface] at h
  cases hm : body.subTypes.mapM (Reproto.variantElement b pos body) with
  | error e => rw [hm] at h; cases h
  | ok variants =>
      rw [hm] at h
      cases h
      refine ⟨by simp, variants, rfl, ?_⟩
      have hfa := exceptMapM_ok_forall2 _ _ _ hm
      refine List.Forall₂.imp ?_ hfa
      intro st element hel
      rw [Reproto.variantElement] at hel
      cases hfl : (body.fields ++ st.fields).mapM (Reproto.fieldElement b pos) with
      | error e => rw [hfl] at hel; cases hel
      | ok fieldLines =>
          rw [hfl] at hel
          cases hel
          exact ⟨fieldLines, rfl, rfl⟩

/-- Witness for claim C7: the `Shape` interface of the spec's scenario 3
emits `shapeEnumSpec`, which carries the serde `type` tag. -/
theorem c7_witness :
    "#[serde(tag = \"type\")]" ∈ Reproto.shapeEnumSpec.attributes :=
  (c7_interface_tagged_union Reproto.shapeBackend { start := 0, stop := 0 }
    "Shape" Reproto.shapeBody Reproto.shapeEnumSpec rfl).1

/-- Claim C2: the grammar's `string` rule accepts the escapes `\\`, `\"`
and `\/`, but `decode_escaped_string` has no match arm for them and fails
with `InvalidEscape` on each; the `\n` and `\uXXXX` escapes decode
correctly. -/
theorem c2_escape_decoder_bug :
    (Reproto.acceptsStringLit "\"\\\\\"" = true
        ∧ Reproto.decodeEscapedString "\"\\\\\""
            = Except.error Reproto.EscErr.invalidEscape)
      ∧ (Reproto.acceptsStringLit "\"\\\"\"" = true
          ∧ Reproto.decodeEscapedString "\"\\\"\""
              = Except.error Reproto.EscErr.invalidEscape)
      ∧ (Reproto.acceptsStringLit "\"\\/\"" = true
          ∧ Reproto.decodeEscapedString "\"\\/\""
              = Except.error Reproto.EscErr.invalidEscape)
      ∧ Reproto.decodeEscapedString "\"foo\\nbar\"" = Except.ok "foo\nbar"
      ∧ Reproto.decodeEscapedString "\"\\u0041\"" = Except.ok "A" :=
  ⟨⟨rfl, rfl⟩, ⟨rfl, rfl⟩, ⟨rfl, rfl⟩, rfl, rfl⟩

/-- Claim C3, counterexample: the canonical `service` declaration is
rejected by the parser while the same file with `type` is accepted — the
`decl` rule lists only four keywords. -/
theorem c3_counterexample :
    Reproto.parsesFile "package a; service Foo \x7b\x7d" = false
      ∧ Reproto.parsesFile "package a; type Foo \x7b\x7d" = true :=
  ⟨rfl, rfl⟩

/-- Helper: every input starting with `s` is rejected by the `decl` rule —
all four alternatives begin with a keyword whose first letter differs. -/
theorem decl_rejects_s (fuel : Nat) (cs : List Char) :
    Reproto.interp (fuel + 8) false (Reproto.Peg.call Reproto.RuleId.decl)
      ('s' :: cs) = none := rfl

/-- Claim C3, amended: the grammar accepts a top-level declaration
beginning with any of the four keywords `type`, `tuple`, `interface` and
`enum` — for each there is a schema file the parser accepts — and the
`decl` rule rejects every input starting with `s`, so no `service`
declaration is accepted. -/
theorem c3_four_decl_keywords :
    (Reproto.parsesFile "package a; type Foo \x7b\x7d" = true
        ∧ Reproto.parsesFile "package a; tuple Foo \x7b\x7d" = true
        ∧ Reproto.parsesFile "package a; interface Foo \x7b\x7d" = true
        ∧ Reproto.parsesFile "package a; enum Foo \x7b\x7d" = true)
      ∧ ∀ cs, Reproto.interp Reproto.parseFuel false
          (Reproto.Peg.call Reproto.RuleId.decl) ('s' :: cs) = none :=
  ⟨⟨rfl, rfl, rfl, rfl⟩, fun cs => decl_rejects_s 4992 cs⟩
